import Mathlib

/-!
Formal model of the Flappy-Bird web backend's account / economy / leaderboard
subsystem (`database.py` and `web_app.py`), as a shallow embedding with
explicit state passing.  The persistent store (three SQLite tables) is a
`DB` structure holding lists of rows; every `Database` method of the source
becomes a pure Lean function from a `DB` (plus its arguments, with the
current wall-clock time passed explicitly where the source calls
`datetime.now()`, and the randomly generated token passed explicitly where
the source calls `generate_token`) to a new `DB` and its return value.
The Flask route handlers of `web_app.py` become functions over `DB`
parametrised by the session's user id.
-/

/-- Model of `Database.hash_password` (SHA-256 hex digest).  The digest
function itself is irrelevant to the verified properties, which only use
that it is a deterministic function of the password compared for equality;
it is modelled as an injective tagging of the input. -/
def hash_password (password : String) : String :=
  String.append "sha256:" password

/-- One row of the `users` table of `database.py`. -/
structure User where
  id : Nat
  email : String
  username : String
  password_hash : String
  is_verified : Bool
  verification_token : Option String
  reset_token : Option String
  reset_token_expires : Option Nat
  coins : Int
  deriving Repr, DecidableEq

/-- One row of the `game_history` table (the `id` and `played_at` columns
are not read by any modelled query and are omitted). -/
structure GameRecord where
  user_id : Nat
  score : Int
  play_time : Int
  deriving Repr, DecidableEq

/-- One row of the `user_unlocks` table. -/
structure Unlock where
  user_id : Nat
  unlock_type : String
  unlock_name : String
  deriving Repr, DecidableEq

/-- The persistent store: the three tables created by
`Database.init_database`. -/
structure DB where
  users : List User
  game_history : List GameRecord
  user_unlocks : List Unlock
  deriving Repr, DecidableEq

/-- The dictionary returned by `Database.authenticate_user` on success:
`{'id': ..., 'username': ..., 'email': ..., 'coins': ...}`. -/
structure AuthUser where
  id : Nat
  username : String
  email : String
  coins : Int
  deriving Repr, DecidableEq

/-- The next `AUTOINCREMENT` primary key for the `users` table:
one more than the largest id in use. -/
def next_user_id (db : DB) : Nat :=
  (db.users.map (fun u => u.id)).foldl max 0 + 1

/-- Model of `Database.create_user`.  The randomly generated verification
token is passed in as `token`.  The `INSERT` fails with an
`IntegrityError` (modelled as `Except.error`) when the `UNIQUE`
constraints on email or username are violated; otherwise the new row gets
the schema defaults `is_verified = FALSE` and `coins = 25`, and
`(user_id, verification_token)` is returned. -/
def create_user (db : DB) (email username password token : String) :
    Except Unit (DB × Nat × String) :=
  if db.users.any (fun u => u.email == email || u.username == username) then
    Except.error ()
  else
    let uid := next_user_id db
    let u : User :=
      { id := uid, email := email, username := username,
        password_hash := hash_password password,
        is_verified := false, verification_token := some token,
        reset_token := none, reset_token_expires := none, coins := 25 }
    Except.ok ({ db with users := db.users ++ [u] }, uid, token)

/-- Model of `Database.verify_user_by_id`: `UPDATE users SET
is_verified = TRUE, verification_token = NULL WHERE id = ?`, returning
`rowcount > 0`. -/
def verify_user_by_id (db : DB) (user_id : Nat) : DB × Bool :=
  ({ db with
      users := db.users.map fun u =>
        if u.id == user_id then
          { u with is_verified := true, verification_token := none }
        else u },
   db.users.any (fun u => u.id == user_id))

/-- Model of `Database.authenticate_user`: select the user by email (and,
unless `skip_password_check`, by password hash); return the user
dictionary only when the row exists and is verified, else `none`. -/
def authenticate_user (db : DB) (email password : String)
    (skip_password_check : Bool) : Option AuthUser :=
  let user? :=
    if skip_password_check then
      db.users.find? (fun u => u.email == email)
    else
      db.users.find? (fun u =>
        u.email == email && u.password_hash == hash_password password)
  match user? with
  | some u =>
      if u.is_verified then
        some { id := u.id, username := u.username, email := email, coins := u.coins }
      else none
  | none => none

/-- The `WHERE` clause of `Database.reset_password`:
`reset_token = ? AND reset_token_expires > ?` (a `NULL` expiry never
satisfies the comparison). -/
def reset_hit (token : String) (now : Nat) (u : User) : Bool :=
  u.reset_token == some token &&
    match u.reset_token_expires with
    | some e => decide (now < e)
    | none => false

/-- Model of `Database.reset_password`: a single conditional `UPDATE`
setting the new password hash and clearing the token and its expiry on
every row whose token matches and whose expiry is still in the future;
returns `rowcount > 0`. -/
def reset_password (db : DB) (token new_password : String) (now : Nat) :
    DB × Bool :=
  ({ db with
      users := db.users.map fun u =>
        if reset_hit token now u then
          { u with password_hash := hash_password new_password,
                   reset_token := none, reset_token_expires := none }
        else u },
   db.users.any (reset_hit token now))

/-- Model of `Database.save_game_score`: a guest (`user_id` is `None`)
returns immediately with no change; otherwise one `game_history` row is
inserted and the same transaction runs
`UPDATE users SET coins = coins + score WHERE id = ?`. -/
def save_game_score (db : DB) (user_id : Option Nat) (score play_time : Int) :
    DB :=
  match user_id with
  | none => db
  | some uid =>
      { db with
        game_history := db.game_history ++ [⟨uid, score, play_time⟩],
        users := db.users.map fun u =>
          if u.id == uid then { u with coins := u.coins + score } else u }

/-- Model of `Database.get_user_coins`: the `coins` column of the user row,
or `0` when `fetchone` finds no row. -/
def get_user_coins (db : DB) (user_id : Nat) : Int :=
  match db.users.find? (fun u => u.id == user_id) with
  | some u => u.coins
  | none => 0

/-- Model of `Database.update_user_coins`:
`UPDATE users SET coins = ? WHERE id = ?`. -/
def update_user_coins (db : DB) (user_id : Nat) (coins : Int) : DB :=
  { db with
    users := db.users.map fun u =>
      if u.id == user_id then { u with coins := coins } else u }

/-- Model of `Database.unlock_character`:
`INSERT OR IGNORE INTO user_unlocks (user_id, unlock_type, unlock_name)
VALUES (?, 'character', ?)` with `unlock_name = str(character_id)`.  The
`user_unlocks` table that `Database.init_database` creates has no
uniqueness constraint on `(user_id, unlock_type, unlock_name)` — only
the autoincrement primary key — so the `OR IGNORE` clause never fires
and the row is appended unconditionally: a repeated unlock stores a
duplicate row. -/
def unlock_character (db : DB) (user_id : Nat) (character_id : Int) : DB :=
  { db with user_unlocks :=
      db.user_unlocks ++ [⟨user_id, "character", toString character_id⟩] }

/-- The per-user score list produced by the `JOIN` of `users` with
`game_history` on `u.id = gh.user_id`, restricted to one user. -/
def user_scores (db : DB) (uid : Nat) : List Int :=
  db.game_history.filterMap fun g =>
    if g.user_id == uid then some g.score else none

/-- A row of the grouped sub-query shared by `Database.get_leaderboard`
and `Database.get_user_rank`: `(u.id, u.username, MAX(gh.score))`. -/
def RankRow : Type := Nat × String × Int

instance : DecidableEq RankRow := by
  unfold RankRow
  infer_instance

/-- The grouped rows `SELECT u.id, u.username, MAX(gh.score) FROM users u
JOIN game_history gh ON u.id = gh.user_id GROUP BY u.id, u.username`, in
`users`-table order: one row per user having at least one game, carrying
that user's maximum score. -/
def user_best_scores (db : DB) : List RankRow :=
  db.users.filterMap fun u =>
    match user_scores db u.id with
    | [] => none
    | s :: rest => some (u.id, u.username, rest.foldl max s)

/-- Stable descending insertion for `ORDER BY best_score DESC`: the new
row goes in front of the first row whose score does not exceed it, so
rows of equal score keep their original relative order. -/
def insertRow (x : RankRow) : List RankRow → List RankRow
  | [] => [x]
  | y :: ys => if y.2.2 ≤ x.2.2 then x :: y :: ys else y :: insertRow x ys

/-- Stable sort of the grouped rows by score, descending: the model of
`ORDER BY best_score DESC` (deterministic tie order = original
`users`-table order). -/
def sortRows : List RankRow → List RankRow
  | [] => []
  | x :: xs => insertRow x (sortRows xs)

/-- The `ranked_scores` CTE of `Database.get_user_rank`: grouped rows in
descending score order; `ROW_NUMBER()` is the 1-based list position. -/
def ranked_scores (db : DB) : List RankRow :=
  sortRows (user_best_scores db)

/-- 0-based index of the first row belonging to `uid`. -/
def idxOfId (uid : Nat) : List RankRow → Option Nat
  | [] => none
  | r :: rs => if r.1 == uid then some 0 else (idxOfId uid rs).map (· + 1)

/-- Model of `Database.get_user_rank`: the `ROW_NUMBER()` (1-based
position in the score-descending order) of the user's row, or `none`
when the user has no grouped row. -/
def get_user_rank (db : DB) (user_id : Nat) : Option Nat :=
  (idxOfId user_id (ranked_scores db)).map (· + 1)

/-- Model of `Database.get_leaderboard`:
`SELECT u.username, MAX(gh.score) ... ORDER BY best_score DESC LIMIT ?`. -/
def get_leaderboard (db : DB) (limit : Nat) : List (String × Int) :=
  ((ranked_scores db).map fun r => (r.2.1, r.2.2)).take limit

/-- Python `str.strip()` whitespace (the ASCII characters it removes). -/
def isStripSpace (c : Char) : Bool :=
  c == ' ' || c == '\t' || c == '\n' || c == '\r' || c == '\x0b' || c == '\x0c'

/-- Model of Python `str.strip()`. -/
def strip (s : String) : String :=
  ⟨((s.toList.dropWhile isStripSpace).reverse.dropWhile isStripSpace).reverse⟩

/-- Character class `[a-zA-Z0-9._%+-]` of the local part of
`is_valid_email`. -/
def isLocalChar (c : Char) : Bool :=
  c.isAlpha || c.isDigit || c == '.' || c == '_' || c == '%' || c == '+' || c == '-'

/-- Character class `[a-zA-Z0-9.-]` of the domain part. -/
def isDomainChar (c : Char) : Bool :=
  c.isAlpha || c.isDigit || c == '.' || c == '-'

/-- Whether the domain part matches `[a-zA-Z0-9.-]+\.[a-zA-Z]{2,}`:
since the final `[a-zA-Z]{2,}` can contain no dot and must reach the end
of the string, the match is forced to split at the maximal alphabetic
suffix, which must have length at least two, be preceded by a dot, and
leave a non-empty `[a-zA-Z0-9.-]+` prefix. -/
def domain_ok (d : List Char) : Bool :=
  let r := d.reverse
  let tld := r.takeWhile Char.isAlpha
  decide (2 ≤ tld.length) &&
    match r.dropWhile Char.isAlpha with
    | '.' :: mid => !mid.isEmpty && mid.all isDomainChar
    | _ => false

/-- Model of `web_app.is_valid_email`: full-string match of
`^[a-zA-Z0-9._%+-]+@[a-zA-Z0-9.-]+\.[a-zA-Z]{2,}$` (no character class
contains `@`, so a match forces exactly one `@` in the string). -/
def is_valid_email (email : String) : Bool :=
  match email.toList.splitOn '@' with
  | [localPart, domainPart] =>
      !localPart.isEmpty && localPart.all isLocalChar && domain_ok domainPart
  | _ => false

/-- The distinct JSON replies of the `/api/signup` handler. -/
inductive SignupResult where
  | fillAllFields
  | invalidEmail
  | shortPassword
  | mismatch
  | duplicate
  | failedCreate
  | success
  deriving Repr, DecidableEq

/-- Model of the `/api/signup` handler of `web_app.py`: strip email and
username, run the validations in source order, then `create_user`
followed by the automatic `verify_user_by_id`. -/
def signup (db : DB) (email0 username0 password confirm_password tok : String) :
    DB × SignupResult :=
  let email := strip email0
  let username := strip username0
  if email.isEmpty || username.isEmpty || password.isEmpty || confirm_password.isEmpty then
    (db, SignupResult.fillAllFields)
  else if !is_valid_email email then
    (db, SignupResult.invalidEmail)
  else if password.length < 6 then
    (db, SignupResult.shortPassword)
  else if password ≠ confirm_password then
    (db, SignupResult.mismatch)
  else
    match create_user db email username password tok with
    | Except.error _ => (db, SignupResult.duplicate)
    | Except.ok (db1, uid, _) =>
        if uid ≠ 0 then
          ((verify_user_by_id db1 uid).1, SignupResult.success)
        else (db1, SignupResult.failedCreate)

/-- Model of the authenticated part of the `/api/save-score` handler:
read the current balance, compute `new_coins = current + score` in the
handler, call `save_game_score` (which itself credits `score`), then
overwrite the balance with `new_coins`; the JSON reply carries
`new_coins`. -/
def save_score_handler (db : DB) (uid : Nat) (score play_time : Int) :
    DB × Int :=
  let current_coins := get_user_coins db uid
  let new_coins := current_coins + score
  let db1 := save_game_score db (some uid) score play_time
  let db2 := update_user_coins db1 uid new_coins
  (db2, new_coins)

/-- The distinct JSON replies of the `/api/unlock-character` handler for
a logged-in session. -/
inductive UnlockResult where
  | characterIdRequired
  | notEnoughCoins
  | success (coins : Int)
  deriving Repr, DecidableEq

/-- Model of the authenticated part of the `/api/unlock-character`
handler: re-read the balance, fail when `current_coins < cost`,
otherwise debit unconditionally and then record the unlock. -/
def unlock_character_handler (db : DB) (uid : Nat)
    (character_id : Option Int) (cost : Int) : DB × UnlockResult :=
  match character_id with
  | none => (db, UnlockResult.characterIdRequired)
  | some cid =>
      let current_coins := get_user_coins db uid
      if current_coins < cost then
        (db, UnlockResult.notEnoughCoins)
      else
        let new_coins := current_coins - cost
        let db1 := update_user_coins db uid new_coins
        let db2 := unlock_character db1 uid cid
        (db2, UnlockResult.success new_coins)

/-- Model of the authenticated part of the `/api/update-coins` handler:
write the client-supplied value straight to the store. -/
def update_coins_handler (db : DB) (uid : Nat) (coins : Int) : DB :=
  update_user_coins db uid coins

/-- The progress of one in-flight `/api/save-score` request for the
interleaving model: its inputs, the balance it read in its first step,
and a program counter over its three storage round trips. -/
structure ReqState where
  score : Int
  play_time : Int
  readVal : Int
  pc : Nat
  deriving Repr, DecidableEq

/-- Initial state of a pending `/api/save-score` request. -/
def initReq (score play_time : Int) : ReqState :=
  { score := score, play_time := play_time, readVal := 0, pc := 0 }

/-- One atomic storage round trip of the `/api/save-score` handler:
step 0 is `get_user_coins` (the read), step 1 is the `save_game_score`
transaction (insert + increment), step 2 is the `update_user_coins`
overwrite with the value computed from the earlier read. -/
def stepReq (uid : Nat) (db : DB) (r : ReqState) : DB × ReqState :=
  match r.pc with
  | 0 => (db, { r with readVal := get_user_coins db uid, pc := 1 })
  | 1 => (save_game_score db (some uid) r.score r.play_time, { r with pc := 2 })
  | 2 => (update_user_coins db uid (r.readVal + r.score), { r with pc := 3 })
  | _ => (db, r)

/-- Run two concurrent `/api/save-score` requests of one user under a
schedule: `true` advances the first request by one atomic step, `false`
the second. -/
def runSched (uid : Nat) : List Bool → DB × ReqState × ReqState → DB × ReqState × ReqState
  | [], s => s
  | b :: rest, (db, r1, r2) =>
      if b then
        let (db1, r1x) := stepReq uid db r1
        runSched uid rest (db1, r1x, r2)
      else
        let (db1, r2x) := stepReq uid db r2
        runSched uid rest (db1, r1, r2x)

/-- A convenience constructor for concrete `users` rows. -/
def mkUser (id : Nat) (email username : String) (coins : Int) : User :=
  { id := id, email := email, username := username,
    password_hash := hash_password "pw123456",
    is_verified := true, verification_token := none,
    reset_token := none, reset_token_expires := none, coins := coins }

/-- A store with a single verified user holding 25 coins. -/
def dbOneUser : DB :=
  { users := [mkUser 1 "a@b.co" "alice" 25],
    game_history := [], user_unlocks := [] }

/-- A store where user 1 has 100 coins and already owns character 3. -/
def dbOwned : DB :=
  { users := [mkUser 1 "a@b.co" "alice" 100],
    game_history := [],
    user_unlocks := [⟨1, "character", "3"⟩] }

/-- A store with two users tied at best score 10. -/
def dbTied : DB :=
  { users := [mkUser 1 "a@b.co" "A" 0, mkUser 2 "c@d.co" "B" 0],
    game_history := [⟨1, 10, 30⟩, ⟨2, 10, 40⟩],
    user_unlocks := [] }

/-- The spec's leaderboard example: user A scores 10 then 15, user B
scores 20 once. -/
def dbExample : DB :=
  { users := [mkUser 1 "a@b.co" "A" 0, mkUser 2 "c@d.co" "B" 0],
    game_history := [⟨1, 10, 30⟩, ⟨1, 15, 35⟩, ⟨2, 20, 40⟩],
    user_unlocks := [] }

/-- A store with one verified user holding a live reset token. -/
def dbReset : DB :=
  { users := [{ mkUser 1 "a@b.co" "alice" 25 with
                reset_token := some "tok123", reset_token_expires := some 100 }],
    game_history := [], user_unlocks := [] }

/-! ### Helper lemmas about the store operations -/

theorem find?_update (l : List User) (uid : Nat) (g : User → User)
    (hg : ∀ u, (g u).id = u.id) :
    (l.map fun u => if u.id == uid then g u else u).find? (fun u => u.id == uid)
      = (l.find? (fun u => u.id == uid)).map g := by
  rw [List.find?_map]
  have hpf : ((fun u => u.id == uid) ∘ fun u => if u.id == uid then g u else u)
      = fun u => u.id == uid := by
    funext u
    by_cases h : u.id = uid
    · simp [h, hg u]
    · simp [h]
  rw [hpf]
  cases hf : l.find? (fun u => u.id == uid) with
  | none => rfl
  | some u =>
    have hp := List.find?_some hf
    simp only [Option.map_some']
    simp only at hp
    simp [hp]

theorem get_user_coins_update (db : DB) (uid : Nat) (v : Int) :
    get_user_coins (update_user_coins db uid v) uid
      = if (db.users.find? (fun u => u.id == uid)).isSome then v else 0 := by
  have h := find?_update db.users uid (fun u => { u with coins := v }) (fun u => rfl)
  unfold get_user_coins update_user_coins
  dsimp only
  rw [h]
  cases db.users.find? (fun u => u.id == uid) <;> simp

theorem get_user_coins_save (db : DB) (uid : Nat) (score pt : Int) :
    get_user_coins (save_game_score db (some uid) score pt) uid
      = if (db.users.find? (fun u => u.id == uid)).isSome
        then get_user_coins db uid + score else 0 := by
  have h := find?_update db.users uid (fun u => { u with coins := u.coins + score })
    (fun u => rfl)
  unfold get_user_coins save_game_score
  dsimp only
  rw [h]
  cases db.users.find? (fun u => u.id == uid) <;> simp

theorem find?_isSome_save (db : DB) (uid : Nat) (score pt : Int) :
    ((save_game_score db (some uid) score pt).users.find? (fun u => u.id == uid)).isSome
      = (db.users.find? (fun u => u.id == uid)).isSome := by
  have h := find?_update db.users uid (fun u => { u with coins := u.coins + score })
    (fun u => rfl)
  unfold save_game_score
  dsimp only
  rw [h]
  cases db.users.find? (fun u => u.id == uid) <;> simp

theorem find?_append_left_none {α} (p : α → Bool) (l1 l2 : List α)
    (h : ∀ a ∈ l1, p a = false) :
    (l1 ++ l2).find? p = l2.find? p := by
  induction l1 with
  | nil => rfl
  | cons a t ih =>
    have ha : p a = false := h a (List.mem_cons_self a t)
    simp only [List.cons_append, List.find?_cons, ha]
    exact ih fun b hb => h b (List.mem_cons_of_mem a hb)

theorem foldl_max_le {α} [LinearOrder α] (l : List α) (a : α) :
    a ≤ l.foldl max a ∧ ∀ x ∈ l, x ≤ l.foldl max a := by
  induction l generalizing a with
  | nil => simp
  | cons b t ih =>
    simp only [List.foldl_cons]
    refine ⟨le_trans (le_max_left a b) (ih (max a b)).1, ?_⟩
    intro x hx
    rcases List.mem_cons.mp hx with rfl | hx
    · exact le_trans (le_max_right a x) (ih (max a x)).1
    · exact (ih (max a b)).2 x hx

theorem foldl_max_mem {α} [LinearOrder α] (l : List α) (a : α) :
    l.foldl max a = a ∨ l.foldl max a ∈ l := by
  induction l generalizing a with
  | nil => left; rfl
  | cons b t ih =>
    simp only [List.foldl_cons]
    rcases ih (max a b) with h | h
    · rcases max_choice a b with h2 | h2
      · left; rw [h, h2]
      · right; rw [h, h2]; exact List.mem_cons_self b t
    · right; exact List.mem_cons_of_mem b h

/-! ### Helper lemmas about the ranking model -/

/-- Descending sortedness of grouped rows. -/
def rowsSorted (l : List RankRow) : Prop :=
  l.Pairwise fun a b => b.2.2 ≤ a.2.2

theorem mem_insertRow (x a : RankRow) (l : List RankRow) :
    a ∈ insertRow x l ↔ a = x ∨ a ∈ l := by
  induction l with
  | nil => simp [insertRow]
  | cons y ys ih =>
    by_cases h : y.2.2 ≤ x.2.2
    · simp [insertRow, h]
    · simp [insertRow, h, ih]
      tauto

theorem length_insertRow (x : RankRow) (l : List RankRow) :
    (insertRow x l).length = l.length + 1 := by
  induction l with
  | nil => rfl
  | cons y ys ih =>
    by_cases h : y.2.2 ≤ x.2.2
    · simp [insertRow, h]
    · simp [insertRow, h, ih]

theorem pairwise_insertRow (x : RankRow) (l : List RankRow)
    (hl : rowsSorted l) : rowsSorted (insertRow x l) := by
  induction l with
  | nil => simp [insertRow, rowsSorted]
  | cons y ys ih =>
    rw [rowsSorted, List.pairwise_cons] at hl
    by_cases h : y.2.2 ≤ x.2.2
    · simp only [insertRow, if_pos h]
      rw [rowsSorted, List.pairwise_cons]
      refine ⟨?_, ?_⟩
      · intro b hb
        rcases List.mem_cons.mp hb with rfl | hb
        · exact h
        · exact le_trans (hl.1 b hb) h
      · rw [List.pairwise_cons]; exact hl
    · simp only [insertRow, if_neg h]
      rw [rowsSorted, List.pairwise_cons]
      refine ⟨?_, ?_⟩
      · intro b hb
        rcases (mem_insertRow x b ys).mp hb with rfl | hb
        · exact le_of_lt (lt_of_not_le h)
        · exact hl.1 b hb
      · exact ih hl.2

theorem mem_sortRows (a : RankRow) (l : List RankRow) :
    a ∈ sortRows l ↔ a ∈ l := by
  induction l with
  | nil => simp [sortRows]
  | cons x xs ih =>
    simp [sortRows, mem_insertRow, ih]

theorem length_sortRows (l : List RankRow) :
    (sortRows l).length = l.length := by
  induction l with
  | nil => rfl
  | cons x xs ih => simp [sortRows, length_insertRow, ih]

theorem pairwise_sortRows (l : List RankRow) : rowsSorted (sortRows l) := by
  induction l with
  | nil => simp [sortRows, rowsSorted]
  | cons x xs ih => exact pairwise_insertRow x (sortRows xs) ih

theorem idxOfId_eq_none (uid : Nat) (l : List RankRow) :
    idxOfId uid l = none ↔ ∀ r ∈ l, r.1 ≠ uid := by
  induction l with
  | nil => simp [idxOfId]
  | cons r rs ih =>
    by_cases h : r.1 = uid
    · simp [idxOfId, h]
    · simp [idxOfId, h, ih]

theorem user_scores_ne_nil (db : DB) (uid : Nat) :
    user_scores db uid ≠ [] ↔ ∃ g ∈ db.game_history, g.user_id = uid := by
  unfold user_scores
  constructor
  · intro h
    rcases List.exists_mem_of_ne_nil _ h with ⟨s, hs⟩
    rcases List.mem_filterMap.mp hs with ⟨g, hg, hgs⟩
    by_cases hid : g.user_id = uid
    · exact ⟨g, hg, hid⟩
    · simp [hid] at hgs
  · rintro ⟨g, hg, hid⟩ hnil
    have : g.score ∈ db.game_history.filterMap fun g =>
        if g.user_id == uid then some g.score else none :=
      List.mem_filterMap.mpr ⟨g, hg, by simp [hid]⟩
    rw [hnil] at this
    exact List.not_mem_nil _ this

theorem mem_user_best_scores (db : DB) (r : RankRow) :
    r ∈ user_best_scores db ↔
      ∃ u ∈ db.users, r.1 = u.id ∧ r.2.1 = u.username ∧
        r.2.2 ∈ user_scores db u.id ∧ ∀ s ∈ user_scores db u.id, s ≤ r.2.2 := by
  unfold user_best_scores
  rw [List.mem_filterMap]
  constructor
  · rintro ⟨u, hu, hf⟩
    refine ⟨u, hu, ?_⟩
    rcases hsc : user_scores db u.id with _ | ⟨s, rest⟩
    · rw [hsc] at hf; exact absurd hf (by simp)
    · rw [hsc] at hf
      simp only [Option.some.injEq] at hf
      have hmax := foldl_max_le rest s
      have hmem := foldl_max_mem rest s
      subst hf
      refine ⟨rfl, rfl, ?_, ?_⟩
      · rcases hmem with h | h
        · rw [h]; exact List.mem_cons_self s rest
        · exact List.mem_cons_of_mem s h
      · intro t ht
        rcases List.mem_cons.mp ht with rfl | ht
        · exact hmax.1
        · exact hmax.2 t ht
  · rintro ⟨u, hu, hid, hname, hmem, hmax⟩
    refine ⟨u, hu, ?_⟩
    rcases hsc : user_scores db u.id with _ | ⟨s, rest⟩
    · rw [hsc] at hmem; exact absurd hmem (List.not_mem_nil _)
    · have hle := foldl_max_le rest s
      have hm := foldl_max_mem rest s
      have h1 : rest.foldl max s ≤ r.2.2 := by
        rcases hm with h | h
        · rw [h]; exact hmax s (by rw [hsc]; exact List.mem_cons_self s rest)
        · exact hmax _ (by rw [hsc]; exact List.mem_cons_of_mem s h)
      have h2 : r.2.2 ≤ rest.foldl max s := by
        rw [hsc] at hmem
        rcases List.mem_cons.mp hmem with h | h
        · rw [h]; exact hle.1
        · exact hle.2 _ h
      have hfold : rest.foldl max s = r.2.2 := le_antisymm h1 h2
      show some (u.id, u.username, rest.foldl max s) = some r
      rw [hfold, ← hid, ← hname]
      rfl

theorem unlock_character_users (db : DB) (uid2 : Nat) (cid : Int) :
    (unlock_character db uid2 cid).users = db.users := rfl

theorem get_user_coins_unlock (db : DB) (uid uid2 : Nat) (cid : Int) :
    get_user_coins (unlock_character db uid2 cid) uid = get_user_coins db uid := by
  unfold get_user_coins
  rw [unlock_character_users]

/-! ### The claims -/

/-- Claim C1, as stated, is false: the balance does not stay non-negative
under every operation.  Starting from a store whose only user holds 25
coins, one authenticated `/api/update-coins` request carrying the
client-supplied value `-1` leaves that user's balance at `-1`. -/
theorem C1_counterexample :
    get_user_coins dbOneUser 1 = 25 ∧
    get_user_coins (update_coins_handler dbOneUser 1 (-1)) 1 = -1 ∧
    ¬ 0 ≤ get_user_coins (update_coins_handler dbOneUser 1 (-1)) 1 := by
  decide

/-- Claim C1, amended: the `/api/unlock-character` purchase path never
drives a non-negative balance below zero — it fails (with no debit and
no other change) whenever `balance < cost`, and after any purchase
attempt the balance is still non-negative; the claim's universal
quantification over all operations does not hold, because
`/api/update-coins` writes the client-supplied value unchecked. -/
theorem C1_theorem (db : DB) (uid : Nat) (cid cost : Int)
    (h0 : 0 ≤ get_user_coins db uid) :
    (get_user_coins db uid < cost →
      unlock_character_handler db uid (some cid) cost
        = (db, UnlockResult.notEnoughCoins)) ∧
    0 ≤ get_user_coins (unlock_character_handler db uid (some cid) cost).1 uid := by
  constructor
  · intro h
    unfold unlock_character_handler
    dsimp only
    rw [if_pos h]
  · unfold unlock_character_handler
    dsimp only
    by_cases h : get_user_coins db uid < cost
    · rw [if_pos h]
      exact h0
    · rw [if_neg h]
      dsimp only
      rw [get_user_coins_unlock, get_user_coins_update]
      by_cases hs : (db.users.find? (fun u => u.id == uid)).isSome
      · rw [if_pos hs]
        omega
      · rw [if_neg hs]

theorem C1_witness :
    0 ≤ get_user_coins dbOneUser 1 ∧
    (get_user_coins dbOneUser 1 < 30 →
      unlock_character_handler dbOneUser 1 (some 7) 30
        = (dbOneUser, UnlockResult.notEnoughCoins)) ∧
    0 ≤ get_user_coins (unlock_character_handler dbOneUser 1 (some 7) 30).1 1 :=
  ⟨by decide, (C1_theorem dbOneUser 1 7 30 (by decide)).1,
    (C1_theorem dbOneUser 1 7 30 (by decide)).2⟩

/-- Claim C2: `authenticate_user` (with the password check on, as the
login route calls it) returns a user only when some stored account has
that email, the stored hash equals the hash of the supplied password and
the account is verified — and when the account holding the email is
unverified it returns `none` regardless of the password.  Email
uniqueness (a schema constraint) is a hypothesis for the second part. -/
theorem C2_theorem (db : DB) (email password : String)
    (huniq : ∀ u ∈ db.users, ∀ v ∈ db.users, u.email = v.email → u = v) :
    (∀ au, authenticate_user db email password false = some au →
      ∃ u ∈ db.users, u.email = email ∧
        u.password_hash = hash_password password ∧ u.is_verified = true ∧
        au = { id := u.id, username := u.username, email := email, coins := u.coins }) ∧
    (∀ u ∈ db.users, u.email = email → u.is_verified = false →
      authenticate_user db email password false = none) := by
  constructor
  · intro au hau
    unfold authenticate_user at hau
    rw [if_neg Bool.false_ne_true] at hau
    cases hf : db.users.find? (fun u =>
        u.email == email && u.password_hash == hash_password password) with
    | none => rw [hf] at hau; simp at hau
    | some u =>
      rw [hf] at hau
      dsimp only at hau
      have hp := List.find?_some hf
      have hmem := List.mem_of_find?_eq_some hf
      simp only [Bool.and_eq_true, beq_iff_eq] at hp
      by_cases hv : u.is_verified = true
      · rw [if_pos hv] at hau
        refine ⟨u, hmem, hp.1, hp.2, hv, ?_⟩
        exact ((Option.some.injEq _ _).mp hau).symm
      · rw [if_neg hv] at hau
        simp at hau
  · intro u hu hmail hver
    unfold authenticate_user
    rw [if_neg Bool.false_ne_true]
    cases hf : db.users.find? (fun u =>
        u.email == email && u.password_hash == hash_password password) with
    | none => rfl
    | some v =>
      have hp := List.find?_some hf
      have hvmem := List.mem_of_find?_eq_some hf
      simp only [Bool.and_eq_true, beq_iff_eq] at hp
      have hveq : v = u := huniq v hvmem u hu (by rw [hp.1, hmail])
      have hvf : ¬ v.is_verified = true := by
        rw [hveq, hver]; exact Bool.false_ne_true
      dsimp only
      rw [if_neg hvf]

/-- A store whose only user is unverified but holds a correct password
hash for `pw123456`. -/
def dbUnverified : DB :=
  { users := [{ mkUser 1 "a@b.co" "alice" 25 with is_verified := false }],
    game_history := [], user_unlocks := [] }

theorem C2_witness :
    authenticate_user dbUnverified "a@b.co" "pw123456" false = none :=
  (C2_theorem dbUnverified "a@b.co" "pw123456" (by decide)).2
    { mkUser 1 "a@b.co" "alice" 25 with is_verified := false }
    (by decide) rfl rfl

/-- Claim C3: a guest score submission (`user_id` is null) is a pure
no-op on the store, and an authenticated submission appends exactly the
one new `game_history` row and credits the submitting user's balance by
exactly `score` (1 point = 1 coin, additive). -/
theorem C3_theorem (db : DB) (score play_time : Int) :
    save_game_score db none score play_time = db ∧
    ∀ uid : Nat,
      (save_game_score db (some uid) score play_time).game_history
        = db.game_history ++ [⟨uid, score, play_time⟩] ∧
      ((db.users.find? (fun u => u.id == uid)).isSome →
        get_user_coins (save_game_score db (some uid) score play_time) uid
          = get_user_coins db uid + score) := by
  refine ⟨rfl, fun uid => ⟨rfl, fun hs => ?_⟩⟩
  rw [get_user_coins_save, if_pos hs]

theorem C3_witness :
    get_user_coins (save_game_score dbOneUser (some 1) 5 30) 1
      = get_user_coins dbOneUser 1 + 5 :=
  ((C3_theorem dbOneUser 5 30).2 1).2 (by decide)

/-- Claim C10: a single sequential authenticated `/api/save-score`
request with score `s` leaves the balance at exactly the pre-read value
plus `s` (not plus `2*s`): `save_game_score` credits `s`, but the
handler then overwrites the balance with its separately computed
`pre-read + s`; the reply's `coins` field equals that final balance, and
exactly one game record is appended. -/
theorem C10_theorem (db : DB) (uid : Nat) (score play_time : Int)
    (h : (db.users.find? (fun u => u.id == uid)).isSome) :
    get_user_coins (save_score_handler db uid score play_time).1 uid
      = get_user_coins db uid + score ∧
    (save_score_handler db uid score play_time).2
      = get_user_coins db uid + score ∧
    (save_score_handler db uid score play_time).1.game_history
      = db.game_history ++ [⟨uid, score, play_time⟩] := by
  refine ⟨?_, rfl, rfl⟩
  unfold save_score_handler
  dsimp only
  rw [get_user_coins_update, find?_isSome_save, if_pos h]

theorem C10_witness :
    get_user_coins (save_score_handler dbOneUser 1 5 30).1 1
      = get_user_coins dbOneUser 1 + 5 ∧
    (save_score_handler dbOneUser 1 5 30).2 = get_user_coins dbOneUser 1 + 5 :=
  ⟨(C10_theorem dbOneUser 1 5 30 (by decide)).1,
    (C10_theorem dbOneUser 1 5 30 (by decide)).2.1⟩

theorem reset_hit_iff (token : String) (now : Nat) (u : User) :
    reset_hit token now u = true ↔
      u.reset_token = some token ∧
        ∃ e, u.reset_token_expires = some e ∧ now < e := by
  unfold reset_hit
  cases he : u.reset_token_expires with
  | none => simp
  | some e => simp [Bool.and_eq_true, beq_iff_eq]

theorem map_id_of_no_hit {α} (l : List α) (p : α → Bool) (f : α → α)
    (h : ∀ a ∈ l, p a = false) :
    (l.map fun a => if p a then f a else a) = l := by
  induction l with
  | nil => rfl
  | cons a t ih =>
    have ha : p a = false := h a (List.mem_cons_self a t)
    simp only [List.map_cons, ha, Bool.false_eq_true, if_false]
    rw [ih fun b hb => h b (List.mem_cons_of_mem a hb)]

/-- Claim C4: `reset_password` succeeds exactly when some user holds the
token with an expiry strictly in the future; on success it installs the
new password hash and clears both token and expiry for the holder, so a
second call with the same token fails; on failure (unknown or expired
token) it returns false and leaves the store untouched (and, being a
total function, never raises).  Token uniqueness — tokens are random,
with negligible collision probability — is a hypothesis. -/
theorem C4_theorem (db : DB) (token new_password : String) (now : Nat)
    (htok : ∀ u ∈ db.users, ∀ v ∈ db.users,
      u.reset_token = some token → v.reset_token = some token → u = v) :
    ((reset_password db token new_password now).2 = true ↔
      ∃ u ∈ db.users, u.reset_token = some token ∧
        ∃ e, u.reset_token_expires = some e ∧ now < e) ∧
    ((reset_password db token new_password now).2 = false →
      (reset_password db token new_password now).1 = db) ∧
    ((reset_password db token new_password now).2 = true →
      ∀ (new2 : String) (now2 : Nat),
        (reset_password (reset_password db token new_password now).1
          token new2 now2).2 = false) ∧
    ((reset_password db token new_password now).2 = true →
      ∀ u ∈ db.users, u.reset_token = some token →
        { u with password_hash := hash_password new_password,
                 reset_token := none, reset_token_expires := none }
          ∈ (reset_password db token new_password now).1.users) := by
  refine ⟨?_, ?_, ?_, ?_⟩
  · show db.users.any (reset_hit token now) = true ↔ _
    rw [List.any_eq_true]
    constructor
    · rintro ⟨u, hu, hhit⟩
      exact ⟨u, hu, (reset_hit_iff token now u).mp hhit⟩
    · rintro ⟨u, hu, hprop⟩
      exact ⟨u, hu, (reset_hit_iff token now u).mpr hprop⟩
  · intro hfail
    have hall : ∀ u ∈ db.users, reset_hit token now u = false := by
      have h2 : db.users.any (reset_hit token now) = false := hfail
      rw [List.any_eq_false] at h2
      intro u hu
      simpa using h2 u hu
    show ({ db with users := _ } : DB) = db
    rw [map_id_of_no_hit db.users (reset_hit token now) _ hall]
  · intro hsucc new2 now2
    rw [show (reset_password db token new_password now).2
          = db.users.any (reset_hit token now) from rfl,
        List.any_eq_true] at hsucc
    obtain ⟨w, hw, hhitw⟩ := hsucc
    have hwtok : w.reset_token = some token :=
      ((reset_hit_iff token now w).mp hhitw).1
    show ((reset_password db token new_password now).1.users.any
        (reset_hit token now2)) = false
    rw [List.any_eq_false]
    intro v hv
    simp only [Bool.not_eq_true]
    have hv' : v ∈ db.users.map fun u =>
        if reset_hit token now u then
          { u with password_hash := hash_password new_password,
                   reset_token := none, reset_token_expires := none }
        else u := hv
    rcases List.mem_map.mp hv' with ⟨u, hu, hfu⟩
    by_cases hhit : reset_hit token now u = true
    · rw [if_pos hhit] at hfu
      rw [← hfu]
      unfold reset_hit
      simp
    · rw [if_neg (by simpa using hhit)] at hfu
      subst hfu
      by_cases hut : u.reset_token = some token
      · have : u = w := htok u hu w hw hut hwtok
        subst this
        exact absurd hhitw hhit
      · unfold reset_hit
        simp only [Bool.and_eq_false_iff]
        left
        simpa using hut
  · intro hsucc u hu hut
    rw [show (reset_password db token new_password now).2
          = db.users.any (reset_hit token now) from rfl,
        List.any_eq_true] at hsucc
    obtain ⟨w, hw, hhitw⟩ := hsucc
    have hwtok : w.reset_token = some token :=
      ((reset_hit_iff token now w).mp hhitw).1
    have huw : u = w := htok u hu w hw hut hwtok
    subst huw
    have : (if reset_hit token now u then
        { u with password_hash := hash_password new_password,
                 reset_token := none, reset_token_expires := none }
      else u)
        = { u with password_hash := hash_password new_password,
                   reset_token := none, reset_token_expires := none } :=
      if_pos hhitw
    rw [← this]
    exact List.mem_map_of_mem _ hu

/-- The success path followed by a repeat of the same token: the second
call fails because the token was cleared. -/
theorem C4_witness :
    (reset_password dbReset "tok123" "np12345" 5).2 = true ∧
    (reset_password (reset_password dbReset "tok123" "np12345" 5).1
        "tok123" "np12345" 6).2 = false := by
  have h := C4_theorem dbReset "tok123" "np12345" 5 (by decide)
  have h1 : (reset_password dbReset "tok123" "np12345" 5).2 = true := by decide
  exact ⟨h1, h.2.2.1 h1 "np12345" 6⟩

/-- Claim C5 is violated by the code: starting from a user with 100
coins who already owns character 3, repeating the identical purchase
(`character_id = 3`, `cost = 50`) succeeds and the handler debits the
50 coins again — leaving the balance at 50 instead of 100, because the
debit happens unconditionally before any ownership check — and the
repeat `INSERT OR IGNORE` even appends a duplicate unlock row, since
the table `init_database` creates has no uniqueness constraint on the
triple, so the insert is not a no-op either. -/
theorem C5_theorem :
    get_user_coins dbOwned 1 = 100 ∧
    (⟨1, "character", "3"⟩ : Unlock) ∈ dbOwned.user_unlocks ∧
    (unlock_character_handler dbOwned 1 (some 3) 50).2
      = UnlockResult.success 50 ∧
    (unlock_character_handler dbOwned 1 (some 3) 50).1.user_unlocks
      = dbOwned.user_unlocks ++ [⟨1, "character", "3"⟩] ∧
    get_user_coins (unlock_character_handler dbOwned 1 (some 3) 50).1 1 = 50 := by
  decide

/-- Claim C9 is violated by the code: the `/api/save-score` handler
performs a read-then-write across separate storage calls, so two
concurrent submissions for the same user can lose an update.  With an
initial balance of 25 and scores 5 and 7, the interleaving in which both
requests read the balance before either writes (then each completes its
`save_game_score` and its `update_user_coins` overwrite) ends with both
requests finished and the balance at 32 = 25 + 7, not 37 = 25 + 5 + 7. -/
theorem C9_theorem :
    get_user_coins dbOneUser 1 = 25 ∧
    (runSched 1 [true, false, true, true, false, false]
        (dbOneUser, initReq 5 30, initReq 7 40)).2.1.pc = 3 ∧
    (runSched 1 [true, false, true, true, false, false]
        (dbOneUser, initReq 5 30, initReq 7 40)).2.2.pc = 3 ∧
    get_user_coins (runSched 1 [true, false, true, true, false, false]
        (dbOneUser, initReq 5 30, initReq 7 40)).1 1 = 32 ∧
    (32 : Int) ≠ 25 + 5 + 7 := by
  decide

/-- Claim C6's dense-ranking clause is false on the code: with users A
(id 1) and B (id 2) tied at best score 10, `get_user_rank` gives A rank
1 but B rank 2 — `ROW_NUMBER()` assigns tied users distinct ranks, so
the two top-tied users do not both receive rank 1. -/
theorem C6_counterexample :
    user_best_scores dbTied = [(1, "A", 10), (2, "B", 10)] ∧
    get_user_rank dbTied 1 = some 1 ∧
    get_user_rank dbTied 2 = some 2 ∧
    get_user_rank dbTied 2 ≠ some 1 := by
  decide

theorem exists_best_row_iff (db : DB) (uid : Nat) :
    (∃ r ∈ user_best_scores db, r.1 = uid) ↔
      ∃ u ∈ db.users, u.id = uid ∧ ∃ g ∈ db.game_history, g.user_id = uid := by
  constructor
  · rintro ⟨r, hr, hid⟩
    rcases (mem_user_best_scores db r).mp hr with ⟨u, hu, hrid, _, hmem, _⟩
    refine ⟨u, hu, by rw [← hrid, hid], ?_⟩
    have hne : user_scores db u.id ≠ [] := by
      intro hnil
      rw [hnil] at hmem
      exact List.not_mem_nil _ hmem
    rcases (user_scores_ne_nil db u.id).mp hne with ⟨g, hgmem, hgid⟩
    exact ⟨g, hgmem, by rw [hgid, ← hrid, hid]⟩
  · rintro ⟨u, hu, huid, g, hg, hgid⟩
    have hne : user_scores db u.id ≠ [] :=
      (user_scores_ne_nil db u.id).mpr ⟨g, hg, by rw [hgid, huid]⟩
    cases hsc : user_scores db u.id with
    | nil => exact absurd hsc hne
    | cons s rest =>
      refine ⟨(u.id, u.username, rest.foldl max s), ?_, huid⟩
      exact List.mem_filterMap.mpr ⟨u, hu, by rw [hsc]⟩

/-- Claim C6, amended: `get_user_rank` returns `none` exactly when the
user has no game history, and otherwise the 1-based position of the
user's best score under a row-number ranking (descending by score,
ties kept in stored user order) — so the unique strict top scorer gets
rank 1, but two users tied at the top receive the distinct ranks 1 and
2, not both rank 1 as dense ranking would give. -/
theorem C6_theorem (db : DB) (uid : Nat) :
    (get_user_rank db uid = none ↔
      ¬∃ u ∈ db.users, u.id = uid ∧ ∃ g ∈ db.game_history, g.user_id = uid) ∧
    (∀ name b, (uid, name, b) ∈ user_best_scores db →
      (∀ r ∈ user_best_scores db, r.1 ≠ uid → r.2.2 < b) →
      get_user_rank db uid = some 1) ∧
    (get_user_rank dbTied 1 = some 1 ∧ get_user_rank dbTied 2 = some 2) := by
  have h1 : (∀ r ∈ ranked_scores db, r.1 ≠ uid) ↔
      ¬∃ r ∈ user_best_scores db, r.1 = uid := by
    constructor
    · rintro hall ⟨r, hr, hid⟩
      exact hall r ((mem_sortRows r _).mpr hr) hid
    · intro hnone r hr hid
      exact hnone ⟨r, (mem_sortRows r _).mp hr, hid⟩
  refine ⟨?_, ?_, by decide⟩
  · unfold get_user_rank
    rw [Option.map_eq_none', idxOfId_eq_none, h1, exists_best_row_iff]
  · intro name b hmem hmax
    have hmemr : (uid, name, b) ∈ ranked_scores db :=
      (mem_sortRows _ _).mpr hmem
    have hsorted : rowsSorted (ranked_scores db) := pairwise_sortRows _
    cases hr : ranked_scores db with
    | nil => rw [hr] at hmemr; exact absurd hmemr (List.not_mem_nil _)
    | cons h t =>
      rw [hr] at hmemr hsorted
      by_cases hh : h.1 = uid
      · unfold get_user_rank
        rw [hr]
        simp [idxOfId, hh]
      · have hhu : h ∈ user_best_scores db := by
          have hmh : h ∈ ranked_scores db := by
            rw [hr]; exact List.mem_cons_self h t
          exact (mem_sortRows _ _).mp hmh
        have hlt : h.2.2 < b := hmax h hhu hh
        have hbt : (uid, name, b) ∈ t := by
          rcases List.mem_cons.mp hmemr with heq | h2
          · exact absurd (by rw [← heq]) hh
          · exact h2
        rw [rowsSorted, List.pairwise_cons] at hsorted
        have hle : b ≤ h.2.2 := hsorted.1 (uid, name, b) hbt
        exact absurd hle (not_le.mpr hlt)

theorem C6_witness :
    get_user_rank dbExample 2 = some 1 :=
  (C6_theorem dbExample 2).2.1 "B" 20 (by decide) (by decide)

/-- Claim C7: the leaderboard returns at most `limit` entries — exactly
one per user with at least one recorded game when they all fit (its
length is `min limit` of the number of such users) — each entry pairing
a username with that user's maximum ever score, sorted descending by
score under the model's deterministic stable order; and on the spec's
example dataset (A scores 10 then 15, B scores 20) the result is
`[(B, 20), (A, 15)]`. -/
theorem C7_theorem (db : DB) (limit : Nat) :
    (get_leaderboard db limit).length ≤ limit ∧
    (get_leaderboard db limit).length = min limit (user_best_scores db).length ∧
    (get_leaderboard db limit).Pairwise (fun a b => b.2 ≤ a.2) ∧
    (∀ p ∈ get_leaderboard db limit, ∃ u ∈ db.users,
      p.1 = u.username ∧ p.2 ∈ user_scores db u.id ∧
        ∀ s ∈ user_scores db u.id, s ≤ p.2) ∧
    ((user_best_scores db).length ≤ limit →
      ∀ r ∈ user_best_scores db, (r.2.1, r.2.2) ∈ get_leaderboard db limit) ∧
    get_leaderboard dbExample 10 = [("B", 20), ("A", 15)] := by
  refine ⟨List.length_take_le _ _, ?_, ?_, ?_, ?_, by decide⟩
  · unfold get_leaderboard
    rw [List.length_take, List.length_map]
    rw [show ranked_scores db = sortRows (user_best_scores db) from rfl,
      length_sortRows]
  · unfold get_leaderboard
    have hp : rowsSorted (ranked_scores db) := pairwise_sortRows _
    rw [rowsSorted] at hp
    have hm : ((ranked_scores db).map fun r => (r.2.1, r.2.2)).Pairwise
        (fun a b => b.2 ≤ a.2) := hp.map _ (fun a b hab => hab)
    exact hm.sublist (List.take_sublist _ _)
  · intro p hp
    have hp2 : p ∈ (ranked_scores db).map fun r => (r.2.1, r.2.2) :=
      List.take_subset _ _ hp
    rcases List.mem_map.mp hp2 with ⟨r, hr, hpr⟩
    have hru : r ∈ user_best_scores db := (mem_sortRows _ _).mp hr
    rcases (mem_user_best_scores db r).mp hru with ⟨u, hu, _, hname, hmem, hmax⟩
    refine ⟨u, hu, ?_, ?_, ?_⟩
    · rw [← hpr]; exact hname
    · rw [← hpr]; exact hmem
    · rw [← hpr]; exact hmax
  · intro hlen r hr
    unfold get_leaderboard
    have hlen2 : (((ranked_scores db).map fun r => (r.2.1, r.2.2)).length ≤ limit) := by
      rw [List.length_map]
      rw [show ranked_scores db = sortRows (user_best_scores db) from rfl,
        length_sortRows]
      exact hlen
    rw [List.take_of_length_le hlen2]
    exact List.mem_map_of_mem _ ((mem_sortRows _ _).mpr hr)

theorem C7_witness :
    ("B", 20) ∈ get_leaderboard dbExample 10 ∧
    ("A", 15) ∈ get_leaderboard dbExample 10 :=
  ⟨(C7_theorem dbExample 10).2.2.2.2.1 (by decide) (2, "B", 20) (by decide),
   (C7_theorem dbExample 10).2.2.2.2.1 (by decide) (1, "A", 15) (by decide)⟩

theorem id_lt_next_user_id (db : DB) (u : User) (hu : u ∈ db.users) :
    u.id < next_user_id db := by
  have h := (foldl_max_le (db.users.map fun v => v.id) 0).2 u.id
    (List.mem_map_of_mem _ hu)
  unfold next_user_id
  omega

/-- The fresh `users` row inserted by a successful `create_user`. -/
def new_signup_user (db : DB) (email username password token : String) : User :=
  { id := next_user_id db, email := email, username := username,
    password_hash := hash_password password,
    is_verified := false, verification_token := some token,
    reset_token := none, reset_token_expires := none, coins := 25 }

/-- Claim C8: the `/api/signup` handler applies its validations in
exactly the source order — all fields present, then email syntax, then
password length at least 6, then password confirmation, then
email/username uniqueness — returning the failure of the first violated
check; and a successful signup is immediately auto-verified, so the new
account can authenticate (log in) at once with its email and password. -/
theorem C8_theorem (db : DB) (email0 username0 password confirm tok : String) :
    (((strip email0).isEmpty || (strip username0).isEmpty
        || password.isEmpty || confirm.isEmpty) = true →
      signup db email0 username0 password confirm tok
        = (db, SignupResult.fillAllFields)) ∧
    (((strip email0).isEmpty || (strip username0).isEmpty
        || password.isEmpty || confirm.isEmpty) = false →
      is_valid_email (strip email0) = false →
      signup db email0 username0 password confirm tok
        = (db, SignupResult.invalidEmail)) ∧
    (((strip email0).isEmpty || (strip username0).isEmpty
        || password.isEmpty || confirm.isEmpty) = false →
      is_valid_email (strip email0) = true →
      password.length < 6 →
      signup db email0 username0 password confirm tok
        = (db, SignupResult.shortPassword)) ∧
    (((strip email0).isEmpty || (strip username0).isEmpty
        || password.isEmpty || confirm.isEmpty) = false →
      is_valid_email (strip email0) = true →
      ¬ password.length < 6 →
      password ≠ confirm →
      signup db email0 username0 password confirm tok
        = (db, SignupResult.mismatch)) ∧
    (((strip email0).isEmpty || (strip username0).isEmpty
        || password.isEmpty || confirm.isEmpty) = false →
      is_valid_email (strip email0) = true →
      ¬ password.length < 6 →
      password = confirm →
      (∃ u ∈ db.users, u.email = strip email0 ∨ u.username = strip username0) →
      signup db email0 username0 password confirm tok
        = (db, SignupResult.duplicate)) ∧
    (((strip email0).isEmpty || (strip username0).isEmpty
        || password.isEmpty || confirm.isEmpty) = false →
      is_valid_email (strip email0) = true →
      ¬ password.length < 6 →
      password = confirm →
      (¬ ∃ u ∈ db.users, u.email = strip email0 ∨ u.username = strip username0) →
      (signup db email0 username0 password confirm tok).2 = SignupResult.success ∧
      authenticate_user (signup db email0 username0 password confirm tok).1
          (strip email0) password false
        = some { id := next_user_id db, username := strip username0,
                 email := strip email0, coins := 25 }) := by
  refine ⟨?_, ?_, ?_, ?_, ?_, ?_⟩
  · intro h1
    unfold signup
    dsimp only
    rw [if_pos h1]
  · intro h1 h2
    unfold signup
    dsimp only
    rw [if_neg (by rw [h1]; exact Bool.false_ne_true), if_pos (by rw [h2]; rfl)]
  · intro h1 h2 h3
    unfold signup
    dsimp only
    rw [if_neg (by rw [h1]; exact Bool.false_ne_true),
        if_neg (by rw [h2]; decide), if_pos h3]
  · intro h1 h2 h3 h4
    unfold signup
    dsimp only
    rw [if_neg (by rw [h1]; exact Bool.false_ne_true),
        if_neg (by rw [h2]; decide), if_neg h3, if_pos h4]
  · intro h1 h2 h3 h4 hdup
    have hany : db.users.any (fun u =>
        u.email == strip email0 || u.username == strip username0) = true := by
      rw [List.any_eq_true]
      rcases hdup with ⟨u, hu, hcase⟩
      refine ⟨u, hu, ?_⟩
      cases hcase with
      | inl h => simp [h]
      | inr h => simp [h]
    have hcreate : create_user db (strip email0) (strip username0) password tok
        = Except.error () := by
      unfold create_user
      rw [if_pos hany]
    unfold signup
    dsimp only
    rw [if_neg (by rw [h1]; exact Bool.false_ne_true),
        if_neg (by rw [h2]; decide), if_neg h3,
        if_neg (fun hc => hc h4), hcreate]
  · intro h1 h2 h3 h4 hno
    have hany : db.users.any (fun u =>
        u.email == strip email0 || u.username == strip username0) = false := by
      rw [List.any_eq_false]
      intro u hu hcontra
      apply hno
      refine ⟨u, hu, ?_⟩
      simpa [Bool.or_eq_true, beq_iff_eq] using hcontra
    have hcreate : create_user db (strip email0) (strip username0) password tok
        = Except.ok
            ({ db with users := db.users
                ++ [new_signup_user db (strip email0) (strip username0) password tok] },
              next_user_id db, tok) := by
      unfold create_user
      rw [if_neg (by rw [hany]; exact Bool.false_ne_true)]
      rfl
    have hne0 : next_user_id db ≠ 0 := Nat.succ_ne_zero _
    have hsig : signup db email0 username0 password confirm tok
        = ((verify_user_by_id
              ({ db with users := db.users
                  ++ [new_signup_user db (strip email0) (strip username0) password tok] })
              (next_user_id db)).1,
           SignupResult.success) := by
      unfold signup
      dsimp only
      rw [if_neg (by rw [h1]; exact Bool.false_ne_true),
          if_neg (by rw [h2]; decide), if_neg h3,
          if_neg (fun hc => hc h4), hcreate]
      dsimp only
      rw [if_pos hne0]
    refine ⟨by rw [hsig], ?_⟩
    rw [hsig]
    have hmap : ((db.users
          ++ [new_signup_user db (strip email0) (strip username0) password tok]).map
        fun u => if u.id == next_user_id db then
            { u with is_verified := true, verification_token := none } else u)
        = db.users
          ++ [{ new_signup_user db (strip email0) (strip username0) password tok with
                is_verified := true, verification_token := none }] := by
      rw [List.map_append]
      congr 1
      · exact map_id_of_no_hit db.users (fun u => u.id == next_user_id db) _
          fun u hu => beq_eq_false_iff_ne.mpr (Nat.ne_of_lt (id_lt_next_user_id db u hu))
      · simp [new_signup_user]
    have husers : ((verify_user_by_id
          ({ db with users := db.users
              ++ [new_signup_user db (strip email0) (strip username0) password tok] })
          (next_user_id db)).1).users
        = db.users
          ++ [{ new_signup_user db (strip email0) (strip username0) password tok with
                is_verified := true, verification_token := none }] := hmap
    unfold authenticate_user
    rw [if_neg Bool.false_ne_true]
    rw [husers]
    rw [find?_append_left_none _ db.users _ (fun u hu => by
      have hmail : u.email ≠ strip email0 := fun he => hno ⟨u, hu, Or.inl he⟩
      rw [beq_eq_false_iff_ne.mpr hmail, Bool.false_and])]
    rw [List.find?_cons_of_pos _ (by simp [new_signup_user])]
    rfl

theorem C8_witness :
    (signup dbOneUser "x@y.com" "bob" "secret1" "secret1" "tk").2
      = SignupResult.success ∧
    authenticate_user (signup dbOneUser "x@y.com" "bob" "secret1" "secret1" "tk").1
        (strip "x@y.com") "secret1" false
      = some { id := next_user_id dbOneUser, username := strip "bob",
               email := strip "x@y.com", coins := 25 } :=
  (C8_theorem dbOneUser "x@y.com" "bob" "secret1" "secret1" "tk").2.2.2.2.2
    (by decide) (by decide) (by decide) rfl (by decide)
